import Mathlib

/-!
Formal model of the upstream access-control and request-orchestration layer of
the OneLuxStay booking proxy (Guesty integration): response caches, the
outbound-request scheduler, OAuth token acquisition with coalescing, the
429 retry policy, cursor pagination, listing normalization/deduplication and
the availability verdict.  Definitions are shallow embeddings of the
JavaScript source (`netlify/functions/index.js`, `netlify/functions/guesty.js`,
`netlify/functions/guesty.cjs`, `server/index.js`); timestamps are modelled as
integers (`Date.now()` milliseconds) and each call is treated as happening at
one instant unless noted otherwise.
-/

set_option linter.unnecessarySimpa false

namespace OneLux

/- ===================  JavaScript `Map` model  =================== -/

/-- Insertion-ordered association list modelling a JavaScript `Map`:
`set` on a fresh key appends at the end, `set` on an existing key replaces the
value in place (keeping the key's original insertion position), `delete`
removes the entry, and iteration (`keys().next()`, `values()`) follows
insertion order.  `length` corresponds to `Map.size` (keys built through `set`
are distinct). -/
abbrev JsMap (κ ν : Type) := List (κ × ν)

def JsMap.get? {κ ν : Type} [DecidableEq κ] (m : JsMap κ ν) (k : κ) : Option ν :=
  (m.find? (fun p => decide (p.1 = k))).map (·.2)

def JsMap.set {κ ν : Type} [DecidableEq κ] (m : JsMap κ ν) (k : κ) (v : ν) : JsMap κ ν :=
  if (m.find? (fun p => decide (p.1 = k))).isSome then
    m.map (fun p => if p.1 = k then (k, v) else p)
  else
    m ++ [(k, v)]

def JsMap.delete {κ ν : Type} [DecidableEq κ] (m : JsMap κ ν) (k : κ) : JsMap κ ν :=
  m.filter (fun p => decide (p.1 ≠ k))

/-- `map.keys().next().value`: the first key in insertion order, if any. -/
def JsMap.firstKey {κ ν : Type} (m : JsMap κ ν) : Option κ :=
  m.head?.map (·.1)

theorem JsMap.get?_delete_self {κ ν : Type} [DecidableEq κ] (m : JsMap κ ν) (k : κ) :
    (m.delete k).get? k = none := by
  induction m with
  | nil => rfl
  | cons p rest ih =>
      by_cases h : p.1 = k
      · simp only [JsMap.delete, JsMap.get?, List.filter, h] at ih ⊢
        simpa [h] using ih
      · simp only [JsMap.delete, JsMap.get?, List.filter, List.find?, h] at ih ⊢
        simpa [h] using ih

theorem JsMap.get?_replace_ne {κ ν : Type} [DecidableEq κ] (m : JsMap κ ν) (k k' : κ) (v : ν)
    (h : k' ≠ k) :
    JsMap.get? (m.map (fun p => if p.1 = k then (k, v) else p)) k' = m.get? k' := by
  induction m with
  | nil => rfl
  | cons p rest ih =>
      by_cases hp : p.1 = k
      · have hk : ¬ (k = k') := fun hkk => h hkk.symm
        have hp' : ¬ (p.1 = k') := by rw [hp]; exact hk
        simpa [JsMap.get?, List.find?, hp, hk, hp'] using ih
      · by_cases hp' : p.1 = k'
        · simp [JsMap.get?, List.find?, hp, hp', h]
        · simpa [JsMap.get?, List.find?, hp, hp'] using ih

theorem JsMap.get?_append_ne {κ ν : Type} [DecidableEq κ] (m : JsMap κ ν) (k k' : κ) (v : ν)
    (h : k' ≠ k) : JsMap.get? (m ++ [(k, v)]) k' = m.get? k' := by
  have hk : ¬ (k = k') := fun hkk => h hkk.symm
  unfold JsMap.get?
  rw [List.find?_append]
  simp [List.find?, hk]

theorem JsMap.get?_set_ne {κ ν : Type} [DecidableEq κ] (m : JsMap κ ν) (k k' : κ) (v : ν)
    (h : k' ≠ k) : (m.set k v).get? k' = m.get? k' := by
  unfold JsMap.set
  by_cases hmem : (m.find? (fun p => decide (p.1 = k))).isSome
  · simpa [hmem] using JsMap.get?_replace_ne m k k' v h
  · simpa [hmem] using JsMap.get?_append_ne m k k' v h

theorem JsMap.length_set_le {κ ν : Type} [DecidableEq κ] (m : JsMap κ ν) (k : κ) (v : ν) :
    (m.set k v).length ≤ m.length + 1 := by
  unfold JsMap.set
  by_cases hmem : (m.find? (fun p => decide (p.1 = k))).isSome
  · simp [hmem]
  · simp [hmem]

theorem JsMap.length_set_fresh {κ ν : Type} [DecidableEq κ] (m : JsMap κ ν) (k : κ) (v : ν)
    (h : m.get? k = none) : (m.set k v).length = m.length + 1 := by
  have hfind : m.find? (fun p => decide (p.1 = k)) = none := by
    unfold JsMap.get? at h
    cases hf : m.find? (fun p => decide (p.1 = k)) with
    | none => rfl
    | some p => rw [hf] at h; simp at h
  unfold JsMap.set
  simp [hfind]

/- ===================  Response caches (netlify/functions/index.js)  =================== -/

/-- Cached value plus its absolute expiry timestamp, as stored by
`setAvailabilityCache` / `setQuoteCache`. -/
structure CacheEntry (ν : Type) where
  value : ν
  expiresAt : Int
deriving Repr, DecidableEq

def AVAILABILITY_CACHE_TTL_MS : Int := 10 * 60000

def AVAILABILITY_CACHE_MAX : Nat := 500

/-- Default for `GUESTY_QUOTE_CACHE_TTL_MS` (15 minutes). -/
def QUOTE_CACHE_TTL_MS_DEFAULT : Int := 15 * 60000

/-- Default for `GUESTY_LISTINGS_CACHE_TTL_MS` (5 minutes). -/
def LISTINGS_CACHE_TTL_MS_DEFAULT : Int := 5 * 60000

abbrev AvailCache (ν : Type) := JsMap String (CacheEntry ν)

abbrev QuoteCache (ν : Type) := JsMap String (CacheEntry ν)

/-- `getAvailabilityCache` from netlify/functions/index.js: look the key up;
a missing entry is a miss; an entry with `Date.now() > entry.expiresAt`
is deleted and reported as a miss; otherwise the value is returned.
The pair is (returned value, cache after the lookup). -/
def getAvailabilityCache {ν : Type} (now : Int) (k : String) (m : AvailCache ν) :
    Option ν × AvailCache ν :=
  match m.get? k with
  | none => (none, m)
  | some e => if e.expiresAt < now then (none, m.delete k) else (some e.value, m)

/-- `setAvailabilityCache` from netlify/functions/index.js: when the map has
reached `AVAILABILITY_CACHE_MAX` entries, the first (oldest-inserted) key is
deleted — provided it is truthy, i.e. not the empty string — then the new
entry is stored with a 10-minute TTL. -/
def setAvailabilityCache {ν : Type} (now : Int) (k : String) (v : ν) (m : AvailCache ν) :
    AvailCache ν :=
  let m' :=
    if AVAILABILITY_CACHE_MAX ≤ m.length then
      match m.firstKey with
      | some fk => if fk ≠ "" then m.delete fk else m
      | none => m
    else m
  m'.set k ⟨v, now + AVAILABILITY_CACHE_TTL_MS⟩

/-- `getQuoteCache` from netlify/functions/index.js: same lazy-expiry lookup
as the availability cache. -/
def getQuoteCache {ν : Type} (now : Int) (k : String) (m : QuoteCache ν) :
    Option ν × QuoteCache ν :=
  match m.get? k with
  | none => (none, m)
  | some e => if e.expiresAt < now then (none, m.delete k) else (some e.value, m)

/-- `setQuoteCache` from netlify/functions/index.js: stores the entry with the
configured TTL.  Unlike `setAvailabilityCache` there is no size check and no
eviction. -/
def setQuoteCache {ν : Type} (ttl : Int) (now : Int) (k : String) (v : ν) (m : QuoteCache ν) :
    QuoteCache ν :=
  m.set k ⟨v, now + ttl⟩

/-- Single-slot listings cache `listingsCache = { key, expiresAt, data }`. -/
structure ListingsCache (α : Type) where
  key : String
  expiresAt : Int
  data : Option α
deriving Repr, DecidableEq

def ListingsCache.empty {α : Type} : ListingsCache α := ⟨"", 0, none⟩

/-- `getListingsCache` from netlify/functions/index.js: miss when no data is
stored or the key differs; when `Date.now() > expiresAt` the whole slot is
reset and the lookup is a miss. -/
def getListingsCache {α : Type} (now : Int) (k : String) (c : ListingsCache α) :
    Option α × ListingsCache α :=
  if c.data.isNone then (none, c)
  else if c.key ≠ k then (none, c)
  else if c.expiresAt < now then (none, ListingsCache.empty) else (c.data, c)

/-- `setListingsCache` from netlify/functions/index.js. -/
def setListingsCache {α : Type} (ttl : Int) (now : Int) (k : String) (d : α)
    (_c : ListingsCache α) : ListingsCache α :=
  ⟨k, now + ttl, some d⟩

theorem JsMap.length_delete_head {κ ν : Type} [DecidableEq κ] (p : κ × ν) (rest : List (κ × ν)) :
    (JsMap.delete (p :: rest) p.1).length ≤ rest.length := by
  simp only [JsMap.delete, List.filter]
  have : (decide (p.1 ≠ p.1)) = false := by simp
  rw [this]
  exact List.length_filter_le _ rest

/-- Inserting a list of pairwise-distinct, fresh keys into a quote cache grows
it by exactly the number of keys: `setQuoteCache` never evicts anything. -/
theorem length_foldl_setQuoteCache {ν : Type} (ttl now : Int) (v : ν) :
    ∀ (ks : List String) (m : QuoteCache ν), ks.Nodup → (∀ k ∈ ks, m.get? k = none) →
      (ks.foldl (fun acc k => setQuoteCache ttl now k v acc) m).length =
        m.length + ks.length := by
  intro ks
  induction ks with
  | nil => intro m _ _; simp
  | cons k0 rest ih =>
      intro m hnd hfresh
      have hk0 : m.get? k0 = none := hfresh k0 (List.mem_cons_self _ _)
      have hstep : (setQuoteCache ttl now k0 v m).length = m.length + 1 :=
        JsMap.length_set_fresh m k0 _ hk0
      have hrest : ∀ k ∈ rest, (setQuoteCache ttl now k0 v m).get? k = none := by
        intro k hk
        have hne : k ≠ k0 := by
          intro hkk
          exact (List.nodup_cons.mp hnd).1 (hkk ▸ hk)
        rw [setQuoteCache, JsMap.get?_set_ne m k0 k _ hne]
        exact hfresh k (List.mem_cons_of_mem _ hk)
      have := ih (setQuoteCache ttl now k0 v m) (List.nodup_cons.mp hnd).2 hrest
      simp only [List.foldl_cons]
      rw [this, hstep]
      simp only [List.length_cons]
      omega

/- ===================  Claim C9  =================== -/

/-- C9: for each of the three caches (listings, availability, quote), a lookup
performed strictly after the entry's `expiresAt` timestamp returns a miss and
removes the expired entry, and a hit never carries an expired entry. -/
theorem cache_lookup_expired_is_miss {α ν : Type} (now : Int) (k : String)
    (c : ListingsCache α) (m : AvailCache ν) (q : QuoteCache ν) :
    (∀ d, c.data = some d → c.key = k → c.expiresAt < now →
        getListingsCache now k c = (none, ListingsCache.empty)) ∧
    (∀ d c', getListingsCache now k c = (some d, c') → now ≤ c.expiresAt) ∧
    (∀ e, m.get? k = some e → e.expiresAt < now →
        getAvailabilityCache now k m = (none, m.delete k) ∧
          (getAvailabilityCache now k m).2.get? k = none) ∧
    (∀ v m', getAvailabilityCache now k m = (some v, m') →
        ∃ e, m.get? k = some e ∧ now ≤ e.expiresAt ∧ v = e.value) ∧
    (∀ e, q.get? k = some e → e.expiresAt < now →
        getQuoteCache now k q = (none, q.delete k) ∧
          (getQuoteCache now k q).2.get? k = none) ∧
    (∀ v q', getQuoteCache now k q = (some v, q') →
        ∃ e, q.get? k = some e ∧ now ≤ e.expiresAt ∧ v = e.value) := by
  refine ⟨?_, ?_, ?_, ?_, ?_, ?_⟩
  · intro d hd hk hexp
    unfold getListingsCache
    simp [hd, hk, hexp]
  · intro d c' hres
    unfold getListingsCache at hres
    by_cases h1 : c.data.isNone
    · simp [h1] at hres
    · by_cases h2 : c.key ≠ k
      · simp [h1, h2] at hres
      · by_cases h3 : c.expiresAt < now
        · simp [h1, h2, h3] at hres
        · exact le_of_not_lt h3
  · intro e he hexp
    have h1 : getAvailabilityCache now k m = (none, m.delete k) := by
      unfold getAvailabilityCache
      rw [he]
      simp [hexp]
    refine ⟨h1, ?_⟩
    rw [h1]
    exact JsMap.get?_delete_self m k
  · intro v m' hres
    unfold getAvailabilityCache at hres
    cases hget : m.get? k with
    | none => rw [hget] at hres; simp at hres
    | some e =>
        rw [hget] at hres
        by_cases hexp : e.expiresAt < now
        · simp [hexp] at hres
        · simp [hexp] at hres
          exact ⟨e, rfl, le_of_not_lt hexp, hres.1.symm⟩
  · intro e he hexp
    have h1 : getQuoteCache now k q = (none, q.delete k) := by
      unfold getQuoteCache
      rw [he]
      simp [hexp]
    refine ⟨h1, ?_⟩
    rw [h1]
    exact JsMap.get?_delete_self q k
  · intro v q' hres
    unfold getQuoteCache at hres
    cases hget : q.get? k with
    | none => rw [hget] at hres; simp at hres
    | some e =>
        rw [hget] at hres
        by_cases hexp : e.expiresAt < now
        · simp [hexp] at hres
        · simp [hexp] at hres
          exact ⟨e, rfl, le_of_not_lt hexp, hres.1.symm⟩

/-- Witness for C9 at concrete inputs: a cache entry that expired at time 5,
looked up at time 10, misses and is purged in all three caches. -/
theorem cache_lookup_expired_is_miss_witness :
    getListingsCache 10 "k" (⟨"k", 5, some (1 : Nat)⟩ : ListingsCache Nat) =
      (none, ListingsCache.empty) ∧
    getAvailabilityCache 10 "k" ([("k", ⟨2, 5⟩)] : AvailCache Nat) =
      (none, JsMap.delete ([("k", ⟨2, 5⟩)] : AvailCache Nat) "k") ∧
    getQuoteCache 10 "k" ([("k", ⟨2, 5⟩)] : QuoteCache Nat) =
      (none, JsMap.delete ([("k", ⟨2, 5⟩)] : QuoteCache Nat) "k") := by
  refine ⟨?_, ?_, ?_⟩
  · exact (cache_lookup_expired_is_miss 10 "k" ⟨"k", 5, some 1⟩
      ([] : AvailCache Nat) ([] : QuoteCache Nat)).1 1 rfl rfl (by decide)
  · exact ((cache_lookup_expired_is_miss 10 "k" (⟨"k", 5, some 1⟩ : ListingsCache Nat)
      ([("k", ⟨2, 5⟩)] : AvailCache Nat) ([] : QuoteCache Nat)).2.2.1 ⟨2, 5⟩ (by decide)
      (by decide)).1
  · exact ((cache_lookup_expired_is_miss 10 "k" (⟨"k", 5, some 1⟩ : ListingsCache Nat)
      ([] : AvailCache Nat) ([("k", ⟨2, 5⟩)] : QuoteCache Nat)).2.2.2.2.1 ⟨2, 5⟩ (by decide)
      (by decide)).1

/- ===================  Claim C8  =================== -/

/-- Keys used to build the concrete oversized quote cache. -/
def quoteKeyList (n : Nat) : List String :=
  (List.range n).map (fun i => String.mk (List.replicate i 'a'))

/-- Quote cache obtained by n distinct insertions through `setQuoteCache`. -/
def quoteCacheAfter (n : Nat) : QuoteCache Nat :=
  (quoteKeyList n).foldl
    (fun acc k => setQuoteCache QUOTE_CACHE_TTL_MS_DEFAULT 0 k 0 acc) []

theorem quoteKeyList_nodup (n : Nat) : (quoteKeyList n).Nodup := by
  refine List.Nodup.map ?_ (List.nodup_range n)
  intro i j hij
  have h2 := congrArg (fun s => s.data.length) hij
  simpa using h2

/-- Counterexample to C8 as stated: the quote cache enforces no maximum-size
bound at all.  501 insertions through `setQuoteCache` leave 501 live entries —
the cache grows past the only size bound in the module
(`AVAILABILITY_CACHE_MAX = 500`) and no insertion ever evicts an entry. -/
theorem quoteCache_exceeds_bound :
    AVAILABILITY_CACHE_MAX < (quoteCacheAfter 501).length := by
  have h := length_foldl_setQuoteCache (ν := Nat) QUOTE_CACHE_TTL_MS_DEFAULT 0 0
    (quoteKeyList 501) [] (quoteKeyList_nodup 501) (by intro k _; rfl)
  have hlen : (quoteKeyList 501).length = 501 := by
    simp [quoteKeyList]
  rw [quoteCacheAfter, h, hlen]
  decide

/-- C8 amended: the availability cache enforces the 500-entry bound with
oldest-first (insertion-order) eviction, while the quote cache is unbounded —
`setQuoteCache` performs no eviction, so every insertion of a fresh key grows
the cache by one. -/
theorem availability_cache_bounded_quote_cache_not {ν : Type}
    (now : Int) (k : String) (v : ν) (m : AvailCache ν)
    (hkeys : ∀ p ∈ m, p.1 ≠ "")
    (hsize : m.length ≤ AVAILABILITY_CACHE_MAX) :
    (setAvailabilityCache now k v m).length ≤ AVAILABILITY_CACHE_MAX ∧
    (∀ p rest, m = p :: rest → m.length = AVAILABILITY_CACHE_MAX → p.1 ≠ k →
        (setAvailabilityCache now k v m).get? p.1 = none) ∧
    (∀ ttl (qm : QuoteCache ν), qm.get? k = none →
        (setQuoteCache ttl now k v qm).length = qm.length + 1) := by
  refine ⟨?_, ?_, ?_⟩
  · unfold setAvailabilityCache
    by_cases hfull : AVAILABILITY_CACHE_MAX ≤ m.length
    · have hlen : m.length = AVAILABILITY_CACHE_MAX := le_antisymm hsize hfull
      match m, hlen with
      | p :: rest, hlen =>
        have hp : p.1 ≠ "" := hkeys p (List.mem_cons_self _ _)
        have hfk : JsMap.firstKey (p :: rest) = some p.1 := rfl
        simp only [hfull, if_pos, hfk, hp, ite_true, ne_eq, not_false_iff]
        calc (JsMap.set (JsMap.delete (p :: rest) p.1) k ⟨v, now + AVAILABILITY_CACHE_TTL_MS⟩).length
            ≤ (JsMap.delete (p :: rest) p.1).length + 1 := JsMap.length_set_le _ _ _
          _ ≤ rest.length + 1 := Nat.add_le_add_right (JsMap.length_delete_head p rest) 1
          _ = (p :: rest).length := by simp
          _ = AVAILABILITY_CACHE_MAX := hlen
    · have hlt : m.length < AVAILABILITY_CACHE_MAX := lt_of_not_le hfull
      simp only [hfull, if_neg, not_false_iff]
      calc (JsMap.set m k ⟨v, now + AVAILABILITY_CACHE_TTL_MS⟩).length
          ≤ m.length + 1 := JsMap.length_set_le _ _ _
        _ ≤ AVAILABILITY_CACHE_MAX := hlt
  · intro p rest hm hlen hpk
    subst hm
    have hfull : AVAILABILITY_CACHE_MAX ≤ (p :: rest).length := le_of_eq hlen.symm
    have hp : p.1 ≠ "" := hkeys p (List.mem_cons_self _ _)
    have hfk : JsMap.firstKey (p :: rest) = some p.1 := rfl
    unfold setAvailabilityCache
    simp only [hfull, if_pos, hfk, hp, ite_true, ne_eq, not_false_iff]
    rw [JsMap.get?_set_ne _ k p.1 _ hpk]
    exact JsMap.get?_delete_self (p :: rest) p.1
  · intro ttl qm hfresh
    exact JsMap.length_set_fresh qm k _ hfresh

/-- Witness for the amended C8 at concrete inputs: inserting into a one-entry
availability cache stays within the bound, and inserting a fresh key into a
one-entry quote cache grows it to two entries (no eviction). -/
theorem availability_cache_bounded_witness :
    (setAvailabilityCache 0 "k" (0 : Nat) [("j", ⟨1, 5⟩)]).length ≤ AVAILABILITY_CACHE_MAX ∧
    (setQuoteCache QUOTE_CACHE_TTL_MS_DEFAULT 0 "k" (0 : Nat) [("j", ⟨1, 5⟩)]).length = 2 := by
  constructor
  · exact (availability_cache_bounded_quote_cache_not 0 "k" 0 [("j", ⟨1, 5⟩)]
      (by intro p hp; simp at hp; rw [hp]; decide) (by decide)).1
  · exact (availability_cache_bounded_quote_cache_not 0 "k" (0 : Nat) [("j", ⟨1, 5⟩)]
      (by intro p hp; simp at hp; rw [hp]; decide) (by decide)).2.2
      QUOTE_CACHE_TTL_MS_DEFAULT [("j", ⟨1, 5⟩)] (by decide)

/- ===================  Request scheduler (netlify/functions/index.js)  =================== -/

/-- Scheduler configuration: `GUESTY_MAX_CONCURRENT` (default 1) and
`GUESTY_MIN_INTERVAL_MS` (default 1200). -/
structure SchedCfg where
  MAX_CONCURRENT : Nat
  MIN_INTERVAL_MS : Int
deriving Repr, DecidableEq

/-- Process-wide scheduler state: `activeCount`, `lastStart` and the pending
queue length mirror the module-level variables; `timers` holds the deadlines
of pending `setTimeout(start, waitMs)` admissions; `starts` logs the admitted
start times, most recent first; `now` is the event-loop clock. -/
structure SchedState where
  now : Int
  activeCount : Nat
  lastStart : Int
  queueLen : Nat
  timers : List Int
  starts : List Int
deriving Repr, DecidableEq

/-- Initial module state: `activeCount = 0`, `lastStart = 0`, empty queue. -/
def SchedState.init : SchedState := ⟨0, 0, 0, 0, [], []⟩

/-- The `start` closure inside `schedule`: `activeCount += 1`,
`lastStart = Date.now()`, and the caller is admitted (we log its start time). -/
def startStep (t : Int) (s : SchedState) : SchedState :=
  { s with activeCount := s.activeCount + 1, lastStart := t, starts := t :: s.starts }

/-- The `run` closure inside `schedule`, executed at time `t`: enqueue when at
the concurrency cap; otherwise compute
`waitMs = max(0, lastStart + MIN_INTERVAL_MS - now)` and either start
immediately (`waitMs = 0`) or schedule `setTimeout(start, waitMs)`, which
fires at `lastStart + MIN_INTERVAL_MS`. -/
def runStep (cfg : SchedCfg) (t : Int) (s : SchedState) : SchedState :=
  if cfg.MAX_CONCURRENT ≤ s.activeCount then { s with queueLen := s.queueLen + 1 }
  else if 0 < max 0 (s.lastStart + cfg.MIN_INTERVAL_MS - t) then
    { s with timers := (s.lastStart + cfg.MIN_INTERVAL_MS) :: s.timers }
  else startStep t s

/-- The release callback handed to a scheduled call:
`activeCount = Math.max(0, activeCount - 1)`, then dequeue and run the next
waiter if one is queued. -/
def releaseStep (cfg : SchedCfg) (t : Int) (s : SchedState) : SchedState :=
  if 0 < s.queueLen then
    runStep cfg t { s with activeCount := s.activeCount - 1, queueLen := s.queueLen - 1 }
  else { s with activeCount := s.activeCount - 1 }

/-- One event of the single-threaded event loop.  Time is nondecreasing, and a
pending pacing timer fires exactly at its deadline before any event bearing a
later timestamp (the `hbefore` premises), matching `setTimeout` firing
promptly at its deadline. -/
inductive SchedStep (cfg : SchedCfg) : SchedState → SchedState → Prop where
  | arrive (t : Int) (s : SchedState) (hmono : s.now ≤ t)
      (hbefore : ∀ d ∈ s.timers, t < d) :
      SchedStep cfg s (runStep cfg t { s with now := t })
  | fire (t : Int) (s : SchedState) (hmono : s.now ≤ t) (hmem : t ∈ s.timers)
      (hmin : ∀ d ∈ s.timers, t ≤ d) :
      SchedStep cfg s (startStep t { s with now := t, timers := s.timers.erase t })
  | release (t : Int) (s : SchedState) (hmono : s.now ≤ t)
      (hbefore : ∀ d ∈ s.timers, t < d) :
      SchedStep cfg s (releaseStep cfg t { s with now := t })

/-- States reachable from the initial module state. -/
def SchedReachable (cfg : SchedCfg) (s : SchedState) : Prop :=
  Relation.ReflTransGen (SchedStep cfg) SchedState.init s

/-- Default configuration: 1 concurrent call, 1200 ms spacing. -/
def cfgDefault : SchedCfg := ⟨1, 1200⟩

def sTrace1 : SchedState := runStep cfgDefault 2000 { SchedState.init with now := 2000 }

def sTrace2 : SchedState := releaseStep cfgDefault 2100 { sTrace1 with now := 2100 }

def sTrace3 : SchedState := runStep cfgDefault 2200 { sTrace2 with now := 2200 }

def sTrace4 : SchedState := runStep cfgDefault 2300 { sTrace3 with now := 2300 }

def sTrace5 : SchedState :=
  startStep 3200 { sTrace4 with now := 3200, timers := sTrace4.timers.erase 3200 }

def sTrace6 : SchedState :=
  startStep 3200 { sTrace5 with now := 3200, timers := sTrace5.timers.erase 3200 }

/-- Counterexample to C1 as stated: with the default configuration
(`MAX_CONCURRENT = 1`, `MIN_INTERVAL_MS = 1200`), one call is admitted at
t=2000 and released at t=2100, then two callers arrive at t=2200 and t=2300.
Both find `activeCount = 0` and both schedule a pacing timer for t=3200;
neither timer re-checks the cap when it fires, so both admit: `activeCount`
reaches 2 > 1 and two calls start 0 ms apart. -/
theorem scheduler_claim_counterexample :
    SchedReachable cfgDefault sTrace6 ∧
    cfgDefault.MAX_CONCURRENT = 1 ∧ sTrace6.activeCount = 2 ∧
    sTrace6.starts.head? = some 3200 ∧ sTrace6.starts.tail.head? = some 3200 := by
  refine ⟨?_, rfl, by decide, by decide, by decide⟩
  refine Relation.ReflTransGen.head
    (SchedStep.arrive 2000 SchedState.init (by decide) (by decide)) ?_
  refine Relation.ReflTransGen.head
    (SchedStep.release 2100 sTrace1 (by decide) (by decide)) ?_
  refine Relation.ReflTransGen.head
    (SchedStep.arrive 2200 sTrace2 (by decide) (by decide)) ?_
  refine Relation.ReflTransGen.head
    (SchedStep.arrive 2300 sTrace3 (by decide) (by decide)) ?_
  refine Relation.ReflTransGen.head
    (SchedStep.fire 3200 sTrace4 (by decide) (by decide) (by decide)) ?_
  refine Relation.ReflTransGen.head
    (SchedStep.fire 3200 sTrace5 (by decide) (by decide) (by decide)) ?_
  exact Relation.ReflTransGen.refl

/-- Reachability along traces every state of which satisfies `P`. -/
inductive SchedReachableUnder (cfg : SchedCfg) (P : SchedState → Prop) : SchedState → Prop where
  | init : P SchedState.init → SchedReachableUnder cfg P SchedState.init
  | step {s s' : SchedState} : SchedReachableUnder cfg P s → SchedStep cfg s s' → P s' →
      SchedReachableUnder cfg P s'

/-- Inductive invariant for the scheduler under the single-pending-timer
discipline. -/
def SchedInv (cfg : SchedCfg) (s : SchedState) : Prop :=
  s.activeCount ≤ cfg.MAX_CONCURRENT ∧
  s.starts.Chain' (fun a b => b + cfg.MIN_INTERVAL_MS ≤ a) ∧
  s.lastStart = s.starts.headD 0 ∧
  (∀ d ∈ s.timers, d = s.lastStart + cfg.MIN_INTERVAL_MS ∧ s.activeCount < cfg.MAX_CONCURRENT)

theorem schedInv_init (cfg : SchedCfg) : SchedInv cfg SchedState.init := by
  refine ⟨Nat.zero_le _, List.chain'_nil, rfl, ?_⟩
  intro d hd
  simp [SchedState.init] at hd

theorem erase_len_le_one_eq_nil {α : Type} [DecidableEq α] {l : List α} {t : α}
    (h1 : l.length ≤ 1) (h2 : t ∈ l) : l.erase t = [] := by
  cases l with
  | nil => simp at h2
  | cons a l2 =>
      cases l2 with
      | nil =>
          have ht : t = a := by simpa using h2
          simp [ht]
      | cons b l3 =>
          exfalso
          have : l3.length + 1 + 1 ≤ 1 := by simpa [List.length_cons] using h1
          omega

theorem chain_extend (R : Int → Int → Prop) (starts : List Int) (t : Int)
    (hchain : starts.Chain' R)
    (hhead : ∀ a, starts.head? = some a → R t a) :
    (t :: starts).Chain' R := by
  rw [List.chain'_cons']
  exact ⟨fun b hb => hhead b hb, hchain⟩

theorem headD_eq_of_head? {l : List Int} {a : Int} (h : l.head? = some a) :
    l.headD 0 = a := by
  cases l with
  | nil => simp at h
  | cons x xs =>
      simp at h
      simpa using h

/-- Invariant preservation for one execution of the `run` closure, assuming
the invariant components for the pre-state and the promptness premise that no
pending timer deadline lies at or before `t`. -/
theorem schedInv_runStep (cfg : SchedCfg) (t : Int) (s : SchedState)
    (hact : s.activeCount ≤ cfg.MAX_CONCURRENT)
    (hchain : s.starts.Chain' (fun a b => b + cfg.MIN_INTERVAL_MS ≤ a))
    (hlast : s.lastStart = s.starts.headD 0)
    (htim : ∀ d ∈ s.timers, d = s.lastStart + cfg.MIN_INTERVAL_MS ∧
        s.activeCount < cfg.MAX_CONCURRENT)
    (hbefore : ∀ d ∈ s.timers, t < d) :
    SchedInv cfg (runStep cfg t s) := by
  unfold runStep
  by_cases hcap : cfg.MAX_CONCURRENT ≤ s.activeCount
  · rw [if_pos hcap]
    exact ⟨hact, hchain, hlast, htim⟩
  · rw [if_neg hcap]
    by_cases hw : (0 : Int) < max 0 (s.lastStart + cfg.MIN_INTERVAL_MS - t)
    · rw [if_pos hw]
      refine ⟨hact, hchain, hlast, ?_⟩
      intro d hd
      rcases List.mem_cons.mp hd with h | h
      · exact ⟨h, lt_of_not_le hcap⟩
      · exact htim d h
    · rw [if_neg hw]
      have hle : s.lastStart + cfg.MIN_INTERVAL_MS ≤ t := by
        have h2 : s.lastStart + cfg.MIN_INTERVAL_MS - t ≤ 0 :=
          le_trans (le_max_right 0 _) (not_lt.mp hw)
        omega
      have hempty : s.timers = [] := by
        cases htm : s.timers with
        | nil => rfl
        | cons d ds =>
            exfalso
            have hmemd : d ∈ s.timers := by rw [htm]; exact List.mem_cons_self d ds
            have h1 := hbefore d hmemd
            have h2 := (htim d hmemd).1
            omega
      unfold startStep
      refine ⟨Nat.succ_le_of_lt (lt_of_not_le hcap), ?_, rfl, ?_⟩
      · refine chain_extend _ _ _ hchain ?_
        intro a ha
        have h3 : s.starts.headD 0 = a := headD_eq_of_head? ha
        rw [← h3, ← hlast]
        exact hle
      · intro d hd
        rw [hempty] at hd
        exact absurd hd (List.not_mem_nil d)

theorem schedInv_step (cfg : SchedCfg) {s s' : SchedState} (hstep : SchedStep cfg s s')
    (hP : s.timers.length ≤ 1)
    (hinv : SchedInv cfg s) : SchedInv cfg s' := by
  obtain ⟨hact, hchain, hlast, htim⟩ := hinv
  cases hstep with
  | arrive t s hmono hbefore =>
      exact schedInv_runStep cfg t { s with now := t } hact hchain hlast htim hbefore
  | fire t s hmono hmem hmin =>
      have hdt := htim t hmem
      have herase : s.timers.erase t = [] := erase_len_le_one_eq_nil hP hmem
      unfold startStep
      refine ⟨Nat.succ_le_of_lt hdt.2, ?_, rfl, ?_⟩
      · refine chain_extend _ _ _ hchain ?_
        intro a ha
        have h3 : s.starts.headD 0 = a := headD_eq_of_head? ha
        rw [← h3, ← hlast, hdt.1]
      · intro d hd
        simp only [herase] at hd
        exact absurd hd (List.not_mem_nil d)
  | release t s hmono hbefore =>
      unfold releaseStep
      by_cases hq : 0 < s.queueLen
      · rw [if_pos hq]
        refine schedInv_runStep cfg t _ ?_ hchain hlast ?_ hbefore
        · exact (Nat.sub_le _ _).trans hact
        · intro d hd
          exact ⟨(htim d hd).1, lt_of_le_of_lt (Nat.sub_le _ _) (htim d hd).2⟩
      · rw [if_neg hq]
        refine ⟨(Nat.sub_le _ _).trans hact, hchain, hlast, ?_⟩
        intro d hd
        exact ⟨(htim d hd).1, lt_of_le_of_lt (Nat.sub_le _ _) (htim d hd).2⟩

/-- C1 amended: in every execution in which at most one pacing timer is
pending at any instant, `activeCount` never exceeds `MAX_CONCURRENT` and
consecutive admitted calls start at least `MIN_INTERVAL_MS` apart.  (The
unrestricted claim is refuted by `scheduler_claim_counterexample`: two
concurrently pending timers admit two calls at the same instant.) -/
theorem scheduler_invariants_single_timer (cfg : SchedCfg) (s : SchedState)
    (h : SchedReachableUnder cfg (fun st => st.timers.length ≤ 1) s) :
    s.activeCount ≤ cfg.MAX_CONCURRENT ∧
    s.starts.Chain' (fun a b => b + cfg.MIN_INTERVAL_MS ≤ a) := by
  have hinv : SchedInv cfg s := by
    induction h with
    | init _ => exact schedInv_init cfg
    | step hreach hstep hP' ih =>
        rename_i s0 s1
        have hP : s0.timers.length ≤ 1 := by
          cases hreach with
          | init h0 => exact h0
          | step _ _ h0 => exact h0
        exact schedInv_step cfg hstep hP ih
  exact ⟨hinv.1, hinv.2.1⟩

/-- Witness for the amended C1: the one-admission trace `sTrace1` (a single
call admitted at t=2000) satisfies the single-pending-timer discipline, the
concurrency bound and the spacing chain. -/
theorem scheduler_invariants_single_timer_witness :
    sTrace1.activeCount ≤ cfgDefault.MAX_CONCURRENT ∧
    sTrace1.starts.Chain' (fun a b => b + cfgDefault.MIN_INTERVAL_MS ≤ a) :=
  scheduler_invariants_single_timer cfgDefault sTrace1
    (SchedReachableUnder.step (SchedReachableUnder.init (by decide))
      (SchedStep.arrive 2000 SchedState.init (by decide)
        (by intro d hd; simp [SchedState.init] at hd))
      (by decide))

/- ===================  Token acquisition (guesty.js / guesty.cjs)  =================== -/

/-- JavaScript truthiness of a nullable string: `null`/`undefined` and the
empty string are falsy. -/
def strTruthy : Option String → Bool
  | some s => s ≠ ""
  | none => false

/-- Module state of guesty.js (identical in guesty.cjs): `cachedToken`,
`tokenExpiresAt` and the in-flight `tokenPromise` (identified by the index of
the outbound request it wraps); `requestCount` counts outbound token-endpoint
requests issued so far. -/
structure TokenState where
  cachedToken : Option String
  tokenExpiresAt : Int
  tokenPromise : Option Nat
  requestCount : Nat
deriving Repr, DecidableEq

/-- What a `getToken` caller is handed, synchronously: the still-valid cached
token, an in-flight promise (identified by its request index), or the
missing-credentials error. -/
inductive TokenResult where
  | cached (tok : String)
  | awaits (pid : Nat)
  | credsError
deriving Repr, DecidableEq

/-- The synchronous body of `getToken` in guesty.js / guesty.cjs up to the
point where it returns a value or a promise: return the cached token when it
is still valid for more than 60 s; otherwise return the in-flight
`tokenPromise` when one exists; otherwise (after the credentials check) issue
a new outbound token request, store its promise in `tokenPromise`, and return
that promise.  There is no suspension point before `tokenPromise` is
assigned, so on the single-threaded event loop this whole function body is
atomic; the asynchronous resolution handlers (which fill `cachedToken` and
clear `tokenPromise`) are not modelled since the claims quantify over calls
made while the request is still in flight. -/
def getTokenCall (creds : Bool) (now : Int) (s : TokenState) : TokenResult × TokenState :=
  if strTruthy s.cachedToken ∧ now < s.tokenExpiresAt - 60000 then
    (.cached (s.cachedToken.getD ""), s)
  else
    match s.tokenPromise with
    | some p => (.awaits p, s)
    | none =>
        if creds then
          (.awaits s.requestCount,
           { s with tokenPromise := some s.requestCount,
                    requestCount := s.requestCount + 1 })
        else (.credsError, s)

/-- A sequence of `getToken` calls at the given times, threaded through the
module state (no resolution event occurs in between). -/
def getTokenCalls (creds : Bool) (ts : List Int) (s : TokenState) :
    List TokenResult × TokenState :=
  match ts with
  | [] => ([], s)
  | t :: rest =>
      let r1 := getTokenCall creds t s
      let r2 := getTokenCalls creds rest r1.2
      (r1.1 :: r2.1, r2.2)

theorem getTokenCalls_join (creds : Bool) (p : Nat) (ts : List Int) (s : TokenState)
    (hp : s.tokenPromise = some p)
    (hinvalid : ∀ t ∈ ts, ¬ (strTruthy s.cachedToken = true ∧ t < s.tokenExpiresAt - 60000)) :
    getTokenCalls creds ts s = (ts.map (fun _ => TokenResult.awaits p), s) := by
  induction ts with
  | nil => rfl
  | cons t rest ih =>
      have h1 : getTokenCall creds t s = (.awaits p, s) := by
        unfold getTokenCall
        rw [if_neg (hinvalid t (List.mem_cons_self t rest)), hp]
      have h2 := ih (fun t ht => hinvalid t (List.mem_cons_of_mem _ ht))
      simp only [getTokenCalls, h1, h2]
      simp

/-- C2 (amended, guesty.js / guesty.cjs part): any number of `getToken`
callers arriving while no valid cached token exists and no request is in
flight cause exactly one outbound token request, and every caller is handed
the same in-flight promise. -/
theorem getToken_coalesces (s : TokenState) (t0 : Int) (rest : List Int)
    (hfree : s.tokenPromise = none)
    (hinvalid : ∀ t ∈ t0 :: rest,
        ¬ (strTruthy s.cachedToken = true ∧ t < s.tokenExpiresAt - 60000)) :
    (getTokenCalls true (t0 :: rest) s).2.requestCount = s.requestCount + 1 ∧
    ∀ r ∈ (getTokenCalls true (t0 :: rest) s).1, r = TokenResult.awaits s.requestCount := by
  have h1 : getTokenCall true t0 s =
      (.awaits s.requestCount,
       { s with tokenPromise := some s.requestCount, requestCount := s.requestCount + 1 }) := by
    unfold getTokenCall
    rw [if_neg (hinvalid t0 (List.mem_cons_self t0 rest)), hfree]
    rfl
  have h2 := getTokenCalls_join true s.requestCount rest
    { s with tokenPromise := some s.requestCount, requestCount := s.requestCount + 1 }
    rfl (fun t ht => hinvalid t (List.mem_cons_of_mem _ ht))
  constructor
  · simp only [getTokenCalls, h1, h2]
  · intro r hr
    simp only [getTokenCalls, h1, h2] at hr
    simp at hr
    rcases hr with h | h
    · exact h
    · exact h.2

/-- Witness for C2: two callers at t=100 and t=200 on the empty module state
issue one request and both await request 0. -/
theorem getToken_coalesces_witness :
    (getTokenCalls true [100, 200] ⟨none, 0, none, 0⟩).2.requestCount = 0 + 1 ∧
    ∀ r ∈ (getTokenCalls true [100, 200] ⟨none, 0, none, 0⟩).1,
      r = TokenResult.awaits 0 :=
  getToken_coalesces ⟨none, 0, none, 0⟩ 100 [200] rfl
    (by intro t ht; simp [strTruthy])

/- ===================  getOpenApiToken (netlify/functions/index.js)  =================== -/

/-- Module token variables of index.js plus a count of outbound token-endpoint
requests.  Note: unlike guesty.js there is no in-flight-promise variable. -/
structure OpenApiTokenVars where
  openApiToken : Option String
  openApiExp : Int
  requestCount : Nat
deriving Repr, DecidableEq

/-- Durable cache record `{ access_token, expires_at }` read from the token
file; `none` models a missing/unreadable file (readCache returns null). -/
structure DurableTok where
  access_token : String
  expires_at : Int
deriving Repr, DecidableEq

/-- Token endpoint response body `{ access_token, expires_in }`. -/
structure TokenJson where
  access_token : String
  expires_in : Int
deriving Repr, DecidableEq

inductive TokenOutcome where
  | ok (tok : String)
  | err
deriving Repr, DecidableEq

/-- The memory-hit check of `getOpenApiToken`: return the module token when
`openApiToken && Date.now() < openApiExp`. -/
def openApiMemoryHit (now : Int) (v : OpenApiTokenVars) : Option String :=
  if strTruthy v.openApiToken ∧ now < v.openApiExp then v.openApiToken else none

/-- The client-credentials POST of `getOpenApiToken`: `response = none` models
`!res.ok`; on success the module state becomes the fresh token with
`openApiExp = Date.now() + (expires_in - 300) * 1000`.  Either way an outbound
request was issued. -/
def openApiFetchToken (now : Int) (response : Option TokenJson) (v : OpenApiTokenVars) :
    TokenOutcome × OpenApiTokenVars :=
  match response with
  | none => (.err, { v with requestCount := v.requestCount + 1 })
  | some j =>
      (.ok j.access_token,
       { openApiToken := some j.access_token,
         openApiExp := now + (j.expires_in - 300) * 1000,
         requestCount := v.requestCount + 1 })

/-- The continuation of `getOpenApiToken` after `await readCache(...)`
resolves: adopt a still-valid durable token into memory, else fetch. -/
def openApiAfterRead (now : Int) (cached : Option DurableTok) (response : Option TokenJson)
    (v : OpenApiTokenVars) : TokenOutcome × OpenApiTokenVars :=
  match cached with
  | some c =>
      if now < c.expires_at then
        (.ok c.access_token,
         { v with openApiToken := some c.access_token, openApiExp := c.expires_at })
      else openApiFetchToken now response v
  | none => openApiFetchToken now response v

/-- One full `getOpenApiToken` call, treated as happening at instant `now`
with the given durable-cache contents and token-endpoint response. -/
def getOpenApiToken (now : Int) (cached : Option DurableTok) (response : Option TokenJson)
    (v : OpenApiTokenVars) : TokenOutcome × OpenApiTokenVars :=
  match openApiMemoryHit now v with
  | some tok => (.ok tok, v)
  | none => openApiAfterRead now cached response v

/-- Counterexample to C2 as stated for `getOpenApiToken`: index.js keeps no
in-flight promise, so two concurrent callers that both pass the memory check
before either's `await readCache(...)` resumes each issue their own outbound
token request — two requests, not one. -/
theorem getOpenApiToken_no_coalescing :
    openApiMemoryHit 100 ⟨none, 0, 0⟩ = none ∧
    openApiMemoryHit 101 ⟨none, 0, 0⟩ = none ∧
    (openApiAfterRead 102 none (some ⟨"t", 86400⟩)
        (openApiAfterRead 102 none (some ⟨"t", 86400⟩) ⟨none, 0, 0⟩).2).2.requestCount = 2 := by
  refine ⟨rfl, rfl, ?_⟩
  decide

/-- Counterexample to C3 as stated: when the token endpoint answers with
`expires_in = 300` (not exceeding the 300 s safety margin), `getOpenApiToken`
returns successfully at time 1000 but records
`openApiExp = 1000 + (300 - 300) * 1000 = 1000`, i.e. a token already expired
at the moment of return (`expiresAt <= now`). -/
theorem getOpenApiToken_returns_expired :
    (getOpenApiToken 1000 none (some ⟨"t", 300⟩) ⟨none, 0, 0⟩).1 = TokenOutcome.ok "t" ∧
    ¬ (1000 < (getOpenApiToken 1000 none (some ⟨"t", 300⟩) ⟨none, 0, 0⟩).2.openApiExp) := by
  refine ⟨rfl, ?_⟩
  decide

/-- C3 amended: provided every token-endpoint response carries
`expires_in > 300` (the safety margin subtracted by the code), a successful
`getOpenApiToken` return leaves a strictly-future expiry on all three paths —
in-memory hit, durable-cache adoption, and fresh fetch — and the returned
token is exactly the module token in force. -/
theorem getOpenApiToken_not_expired (now : Int) (cached : Option DurableTok)
    (response : Option TokenJson) (v : OpenApiTokenVars)
    (hfresh : ∀ j, response = some j → 300 < j.expires_in)
    (tok : String) (v' : OpenApiTokenVars)
    (hres : getOpenApiToken now cached response v = (.ok tok, v')) :
    now < v'.openApiExp ∧ v'.openApiToken = some tok := by
  have hfetch : ∀ (v0 : OpenApiTokenVars),
      openApiFetchToken now response v0 = (.ok tok, v') →
      now < v'.openApiExp ∧ v'.openApiToken = some tok := by
    intro v0 hf
    cases hresp : response with
    | none =>
        rw [hresp] at hf
        have heq : openApiFetchToken now none v0 =
            (.err, { v0 with requestCount := v0.requestCount + 1 }) := rfl
        rw [heq] at hf
        simp at hf
    | some j =>
        rw [hresp] at hf
        have heq : openApiFetchToken now (some j) v0 =
            (.ok j.access_token,
             ⟨some j.access_token, now + (j.expires_in - 300) * 1000,
              v0.requestCount + 1⟩) := rfl
        rw [heq] at hf
        simp [Prod.mk.injEq] at hf
        obtain ⟨h1, h2⟩ := hf
        subst h1
        subst h2
        refine ⟨?_, rfl⟩
        have hj := hfresh j hresp
        simp only []
        omega
  cases hmem : openApiMemoryHit now v with
  | some t0 =>
      have hsel : getOpenApiToken now cached response v = (.ok t0, v) := by
        unfold getOpenApiToken
        rw [hmem]
      rw [hsel] at hres
      simp [Prod.mk.injEq] at hres
      obtain ⟨h1, h2⟩ := hres
      subst h1
      subst h2
      unfold openApiMemoryHit at hmem
      by_cases hc : strTruthy v.openApiToken = true ∧ now < v.openApiExp
      · rw [if_pos hc] at hmem
        exact ⟨hc.2, hmem⟩
      · rw [if_neg hc] at hmem
        exact absurd hmem (by simp)
  | none =>
      have hsel : getOpenApiToken now cached response v =
          openApiAfterRead now cached response v := by
        unfold getOpenApiToken
        rw [hmem]
      rw [hsel] at hres
      cases hcached : cached with
      | none =>
          rw [hcached] at hres
          have heq : openApiAfterRead now none response v =
              openApiFetchToken now response v := rfl
          rw [heq] at hres
          exact hfetch v hres
      | some c =>
          rw [hcached] at hres
          have heq : openApiAfterRead now (some c) response v =
              (if now < c.expires_at then
                (.ok c.access_token,
                 { v with openApiToken := some c.access_token,
                          openApiExp := c.expires_at })
               else openApiFetchToken now response v) := rfl
          rw [heq] at hres
          by_cases hcc : now < c.expires_at
          · rw [if_pos hcc] at hres
            simp [Prod.mk.injEq] at hres
            obtain ⟨h1, h2⟩ := hres
            subst h1
            subst h2
            exact ⟨hcc, rfl⟩
          · rw [if_neg hcc] at hres
            exact hfetch v hres

/-- Witness for the amended C3: a fresh fetch at time 0 with
`expires_in = 86400` yields a token whose recorded expiry lies strictly in
the future. -/
theorem getOpenApiToken_not_expired_witness :
    0 < (getOpenApiToken 0 none (some ⟨"t", 86400⟩) ⟨none, 0, 0⟩).2.openApiExp ∧
    (getOpenApiToken 0 none (some ⟨"t", 86400⟩) ⟨none, 0, 0⟩).2.openApiToken = some "t" :=
  getOpenApiToken_not_expired 0 none (some ⟨"t", 86400⟩) ⟨none, 0, 0⟩
    (by intro j hj; cases hj; decide) "t" _ rfl

/- ===================  429 retry policy  =================== -/

/-- An upstream HTTP response as the retry loops see it: `status`,
`retryAfter` is `Number(res.headers.get("retry-after") || 0)` (0 models a
missing header), `body` the response text, and `resultsCount` the length of
`json.results` (used only by the availability query of server/index.js). -/
structure Resp where
  status : Nat
  retryAfter : Int
  body : String
  resultsCount : Nat
deriving Repr, DecidableEq

/-- `res.ok`: status in the 2xx range. -/
def respOk (r : Resp) : Bool := decide (200 ≤ r.status) && decide (r.status < 300)

/-- Backoff of `tryPost` in `createQuote` (netlify/functions/index.js):
`retryAfter > 0 ? retryAfter * 1000 : Math.min(8000, 800 * 2 ** attempt) +
Math.random() * 300`; `jitter attempt` stands for that attempt's random
sample. -/
def quoteBackoff (jitter : Nat → Int) (r : Resp) (attempt : Nat) : Int :=
  if 0 < r.retryAfter then r.retryAfter * 1000
  else min 8000 (800 * 2 ^ attempt) + jitter attempt

inductive QuoteOutcome where
  | ok (body : String)
  | rateLimited (status : Nat) (body : String)
  | upstreamError (body : String)
  | exhausted
deriving Repr, DecidableEq

/-- `tryPost` inside `createQuote` (netlify/functions/index.js): each attempt
consumes the next upstream response.  A 429 with `attempt >= 5` surfaces a
rate-limited error carrying status 429 and the body; an earlier 429 waits
`quoteBackoff` and retries with `attempt + 1`; any other non-ok response
throws immediately with the body; an ok response resolves with its body.
Returns (outcome, number of requests issued, backoff waits performed);
`.exhausted` marks the modelled upstream running out of responses. -/
def tryPost (jitter : Nat → Int) : List Resp → Nat → QuoteOutcome × Nat × List Int
  | [], _ => (.exhausted, 0, [])
  | r :: rest, attempt =>
      if r.status = 429 then
        if 5 ≤ attempt then (.rateLimited 429 r.body, 1, [])
        else
          ((tryPost jitter rest (attempt + 1)).1,
           (tryPost jitter rest (attempt + 1)).2.1 + 1,
           quoteBackoff jitter r attempt :: (tryPost jitter rest (attempt + 1)).2.2)
      else if respOk r then (.ok r.body, 1, [])
      else (.upstreamError r.body, 1, [])

theorem tryPost_requests_le (jitter : Nat → Int) :
    ∀ (rs : List Resp) (attempt : Nat), attempt ≤ 5 →
      (tryPost jitter rs attempt).2.1 ≤ 6 - attempt := by
  intro rs
  induction rs with
  | nil => intro attempt h; simp [tryPost]
  | cons r rest ih =>
      intro attempt h
      unfold tryPost
      by_cases h429 : r.status = 429
      · rw [if_pos h429]
        by_cases hceil : 5 ≤ attempt
        · rw [if_pos hceil]
          simp
          omega
        · rw [if_neg hceil]
          have := ih (attempt + 1) (by omega)
          simp only []
          omega
      · rw [if_neg h429]
        by_cases hok : respOk r = true
        · rw [if_pos hok]
          simp
          omega
        · rw [if_neg hok]
          simp
          omega

/-- C4 amended (netlify `createQuote`): at most 6 requests (1 + 5 retries)
are ever issued; a 2xx resolves immediately; a non-429 non-2xx surfaces
immediately with the body and is never retried; six consecutive 429s surface
the rate-limited error after exactly 6 requests, the backoff before each
retry preferring a server-supplied retry-after over the computed exponential
backoff.  (The dev-server variant `tryQuery` violates the claim: see
`tryQueryServer_unbounded_retry`.) -/
theorem createQuote_retry_policy (jitter : Nat → Int) :
    (∀ rs : List Resp, (tryPost jitter rs 0).2.1 ≤ 6) ∧
    (∀ (r : Resp) (rest : List Resp), respOk r = true →
      tryPost jitter (r :: rest) 0 = (.ok r.body, 1, [])) ∧
    (∀ (r : Resp) (rest : List Resp), r.status ≠ 429 → respOk r = false →
      tryPost jitter (r :: rest) 0 = (.upstreamError r.body, 1, [])) ∧
    (∀ (r0 r1 r2 r3 r4 r5 : Resp) (rest : List Resp),
      r0.status = 429 → r1.status = 429 → r2.status = 429 → r3.status = 429 →
      r4.status = 429 → r5.status = 429 →
      tryPost jitter (r0 :: r1 :: r2 :: r3 :: r4 :: r5 :: rest) 0 =
        (.rateLimited 429 r5.body, 6,
         [quoteBackoff jitter r0 0, quoteBackoff jitter r1 1, quoteBackoff jitter r2 2,
          quoteBackoff jitter r3 3, quoteBackoff jitter r4 4])) := by
  refine ⟨?_, ?_, ?_, ?_⟩
  · intro rs
    simpa using tryPost_requests_le jitter rs 0 (by omega)
  · intro r rest hok
    have h429 : r.status ≠ 429 := by
      intro h
      unfold respOk at hok
      rw [h] at hok
      simp at hok
    unfold tryPost
    rw [if_neg h429, if_pos hok]
  · intro r rest h429 hok
    unfold tryPost
    rw [if_neg h429, if_neg (by simp [hok])]
  · intro r0 r1 r2 r3 r4 r5 rest h0 h1 h2 h3 h4 h5
    have hlast : tryPost jitter (r5 :: rest) 5 = (.rateLimited 429 r5.body, 1, []) := by
      unfold tryPost
      rw [if_pos h5, if_pos (by omega)]
    unfold tryPost
    rw [if_pos h0, if_neg (by omega)]
    unfold tryPost
    rw [if_pos h1, if_neg (by omega)]
    unfold tryPost
    rw [if_pos h2, if_neg (by omega)]
    unfold tryPost
    rw [if_pos h3, if_neg (by omega)]
    unfold tryPost
    rw [if_pos h4, if_neg (by omega)]
    rw [hlast]

/-- Witness for the amended C4 at concrete inputs: a 429 with retry-after 7
followed by a 200 resolves with one retry waiting 7000 ms; a 500 surfaces
immediately; six 429s surface the rate-limited error after 6 requests. -/
theorem createQuote_retry_policy_witness :
    tryPost (fun _ => 0) [⟨500, 0, "boom", 0⟩] 0 =
      (.upstreamError "boom", 1, []) ∧
    tryPost (fun _ => 0) [⟨200, 0, "fine", 1⟩] 0 = (.ok "fine", 1, []) ∧
    tryPost (fun _ => 0) (List.replicate 6 ⟨429, 7, "slow", 0⟩) 0 =
      (.rateLimited 429 "slow", 6, [7000, 7000, 7000, 7000, 7000]) := by
  refine ⟨?_, ?_, ?_⟩
  · exact (createQuote_retry_policy (fun _ => 0)).2.2.1 ⟨500, 0, "boom", 0⟩ []
      (by decide) (by decide)
  · exact (createQuote_retry_policy (fun _ => 0)).2.1 ⟨200, 0, "fine", 1⟩ [] (by decide)
  · have h := (createQuote_retry_policy (fun _ => 0)).2.2.2
      ⟨429, 7, "slow", 0⟩ ⟨429, 7, "slow", 0⟩ ⟨429, 7, "slow", 0⟩ ⟨429, 7, "slow", 0⟩
      ⟨429, 7, "slow", 0⟩ ⟨429, 7, "slow", 0⟩ [] rfl rfl rfl rfl rfl rfl
    simpa [quoteBackoff] using h

/-- `tryQuery` inside the availability route of server/index.js: a 429 waits
`retryAfter > 0 ? retryAfter * 1000 : 800` and retries the same query with NO
attempt counter and no ceiling; a non-ok response records an error and
resolves null; an ok response resolves the payload when `json.results` is
nonempty, else records a no-results error and resolves null.  Returns
(resolved payload, requests issued, waits performed). -/
def tryQueryServer : List Resp → Option String × Nat × List Int
  | [] => (none, 0, [])
  | r :: rest =>
      if r.status = 429 then
        ((tryQueryServer rest).1,
         (tryQueryServer rest).2.1 + 1,
         (if 0 < r.retryAfter then r.retryAfter * 1000 else 800) :: (tryQueryServer rest).2.2)
      else if respOk r then
        (if 0 < r.resultsCount then (some r.body, 1, []) else (none, 1, []))
      else (none, 1, [])

/-- Counterexample to C4 as stated: the server/index.js `tryQuery` wrapper has
no attempt ceiling.  Seven consecutive 429s followed by a 200 lead to 8
outbound requests — more than any 4–5 attempt ceiling — and no rate-limited
error is ever surfaced; the backoff is a constant 800 ms, not exponential. -/
theorem tryQueryServer_unbounded_retry :
    (tryQueryServer (List.replicate 7 ⟨429, 0, "", 0⟩ ++ [⟨200, 0, "ok", 1⟩])).2.1 = 8 ∧
    (tryQueryServer (List.replicate 7 ⟨429, 0, "", 0⟩ ++ [⟨200, 0, "ok", 1⟩])).1 = some "ok" ∧
    (tryQueryServer (List.replicate 7 ⟨429, 0, "", 0⟩ ++ [⟨200, 0, "ok", 1⟩])).2.2 =
      List.replicate 7 800 := by
  refine ⟨?_, ?_, ?_⟩ <;> decide

/- ===================  Cursor pagination (fetchOpenApiListings)  =================== -/

/-- One upstream listings page: `results` is `json?.results` (`none` models a
missing or non-array field), `next` is `json?.pagination?.cursor?.next || ""`
(the empty string models a missing cursor). -/
structure Page where
  results : Option (List Nat)
  next : String
deriving Repr, DecidableEq

/-- The do/while pagination loop of `fetchOpenApiListings`
(netlify/functions/index.js): each iteration issues one page request carrying
the current cursor (empty on the first request), appends `json.results` when
it is an array, takes `pagination.cursor.next || ""` as the new cursor,
increments the guard, and repeats while the cursor is nonempty and the guard
is below 25.  The upstream is the list of successful pages consumed in order
(`fetchPage` contains its own 429 retry loop, modelled by `tryPost` above).
Returns (accumulated results, the cursor carried by each issued request in
order). -/
def paginate : List Page → String → Nat → List Nat × List String
  | [], _, _ => ([], [])
  | p :: rest, cursor, guard =>
      if p.next ≠ "" ∧ guard + 1 < 25 then
        ((p.results.getD []) ++ (paginate rest p.next (guard + 1)).1,
         cursor :: (paginate rest p.next (guard + 1)).2)
      else ((p.results.getD []), [cursor])

/-- `fetchOpenApiListings` around the loop: a non-expired cache hit returns
the cached results with zero page requests, a miss runs the loop from an
empty cursor and guard 0. -/
def fetchOpenApiListings (cache : Option (List Nat)) (pages : List Page) :
    List Nat × List String :=
  match cache with
  | some v => (v, [])
  | none => paginate pages "" 0

theorem paginate_requests_le (pages : List Page) :
    ∀ (cursor : String) (guard : Nat), guard ≤ 24 →
      (paginate pages cursor guard).2.length ≤ 25 - guard := by
  induction pages with
  | nil => intro cursor guard h; simp [paginate]
  | cons p rest ih =>
      intro cursor guard h
      unfold paginate
      by_cases hc : p.next ≠ "" ∧ guard + 1 < 25
      · rw [if_pos hc]
        have := ih p.next (guard + 1) (by omega)
        simp only [List.length_cons]
        omega
      · rw [if_neg hc]
        simp
        omega

theorem paginate_cursor_chain (pages : List Page) :
    ∀ (cursor : String) (guard : Nat), pages ≠ [] →
      (paginate pages cursor guard).2 =
        cursor ::
          (pages.take ((paginate pages cursor guard).2.length - 1)).map Page.next := by
  induction pages with
  | nil => intro cursor guard h; exact absurd rfl h
  | cons p rest ih =>
      intro cursor guard _
      unfold paginate
      by_cases hc : p.next ≠ "" ∧ guard + 1 < 25
      · rw [if_pos hc]
        cases hrest : rest with
        | nil => simp [paginate]
        | cons q qs =>
            have h2 := ih p.next (guard + 1) (by rw [hrest]; simp)
            rw [hrest] at h2
            rw [h2]
            simp [List.take_cons]
      · rw [if_neg hc]
        simp

theorem paginate_results_join (pages : List Page) :
    ∀ (cursor : String) (guard : Nat),
      (paginate pages cursor guard).1 =
        ((pages.take ((paginate pages cursor guard).2.length)).map
          (fun p => p.results.getD [])).join := by
  induction pages with
  | nil => intro cursor guard; simp [paginate]
  | cons p rest ih =>
      intro cursor guard
      unfold paginate
      by_cases hc : p.next ≠ "" ∧ guard + 1 < 25
      · rw [if_pos hc]
        rw [ih p.next (guard + 1)]
        simp [List.take_cons]
      · rw [if_neg hc]
        simp

/-- C5 amended: on a cache miss the loop issues at most 25 page requests, the
first request carries no cursor and every later request carries exactly the
`next` cursor returned by the previous page, the returned results are the
concatenation of the consumed pages' results, a page with no next-cursor
stops the loop, and a cache hit issues zero requests.  (The claim's further
stopping condition "or an empty page" does not exist in the code: see
`paginate_continues_past_empty_page`.) -/
theorem fetchOpenApiListings_pagination (pages : List Page) (v : List Nat)
    (hne : pages ≠ []) :
    (fetchOpenApiListings none pages).2.length ≤ 25 ∧
    (fetchOpenApiListings none pages).2 =
      "" :: (pages.take ((fetchOpenApiListings none pages).2.length - 1)).map Page.next ∧
    (fetchOpenApiListings none pages).1 =
      ((pages.take ((fetchOpenApiListings none pages).2.length)).map
        (fun p => p.results.getD [])).join ∧
    (∀ p rest, pages = p :: rest → p.next = "" →
      fetchOpenApiListings none pages = (p.results.getD [], [""])) ∧
    fetchOpenApiListings (some v) pages = (v, []) := by
  refine ⟨?_, ?_, ?_, ?_, rfl⟩
  · simpa using paginate_requests_le pages "" 0 (by omega)
  · exact paginate_cursor_chain pages "" 0 hne
  · exact paginate_results_join pages "" 0
  · intro p rest hp hnext
    subst hp
    show paginate (p :: rest) "" 0 = (p.results.getD [], [""])
    unfold paginate
    rw [if_neg (by simp [hnext])]

/-- Witness for the amended C5: a three-page upstream (2, 2 and 1 records,
cursors c2 and c3) is walked with 3 requests carrying "", c2, c3 and returns
all five records in order; a cache hit returns the cached data with zero
requests. -/
theorem fetchOpenApiListings_pagination_witness :
    (fetchOpenApiListings none
        [⟨some [1, 2], "c2"⟩, ⟨some [3, 4], "c3"⟩, ⟨some [5], ""⟩]).2.length ≤ 25 ∧
    (fetchOpenApiListings none
        [⟨some [1, 2], "c2"⟩, ⟨some [3, 4], "c3"⟩, ⟨some [5], ""⟩]) =
      ([1, 2, 3, 4, 5], ["", "c2", "c3"]) ∧
    fetchOpenApiListings (some [9])
        [⟨some [1, 2], "c2"⟩, ⟨some [3, 4], "c3"⟩, ⟨some [5], ""⟩] = ([9], []) := by
  refine ⟨?_, by decide, ?_⟩
  · exact (fetchOpenApiListings_pagination
      [⟨some [1, 2], "c2"⟩, ⟨some [3, 4], "c3"⟩, ⟨some [5], ""⟩] [9] (by decide)).1
  · exact (fetchOpenApiListings_pagination
      [⟨some [1, 2], "c2"⟩, ⟨some [3, 4], "c3"⟩, ⟨some [5], ""⟩] [9] (by decide)).2.2.2.2

/-- Counterexample to C5 as stated: an empty page does NOT stop the loop.
The loop condition is only `cursor && guard < 25`: after a page with
`results: []` but a next-cursor, a second request is still issued. -/
theorem paginate_continues_past_empty_page :
    fetchOpenApiListings none [⟨some [], "c2"⟩, ⟨some [7], ""⟩] = ([7], ["", "c2"]) := by
  decide

/- ===================  Availability verdict  =================== -/

/-- JavaScript `toUpperCase()` on the ASCII strings the verdicts compare. -/
def strUpper (s : String) : String := String.mk (s.data.map Char.toUpper)

/-- A JavaScript field value as the verdict derivations inspect it: a
boolean, a string, or some other non-nullish value; nullish (absent field or
null) is modelled by wrapping in `Option`. -/
inductive JsVal where
  | vBool (b : Bool)
  | vStr (s : String)
  | vOther
deriving Repr, DecidableEq

/-- One per-day availability entry of the netlify availability route; the
array element itself may be null, hence callers use `Option DayEntry`. -/
structure DayEntry where
  isAvailable : Option JsVal
  available : Option JsVal
deriving Repr, DecidableEq

/-- `(d?.isAvailable ?? d?.available ?? true) !== false`: nullish coalescing
takes the first non-nullish of the two fields, defaulting to `true`; only the
literal `false` marks the day unavailable. -/
def dayNotExplicitlyFalse (d : Option DayEntry) : Bool :=
  match d with
  | none => true
  | some d =>
      match d.isAvailable with
      | some v => decide (v ≠ JsVal.vBool false)
      | none =>
          match d.available with
          | some v => decide (v ≠ JsVal.vBool false)
          | none => true

/-- The first record of the availability response (`json.results[0]`,
possibly null): `availability` is `none` when the field is missing or not an
array, `availabilityStatus` carries the raw field value. -/
structure AvailRecord where
  availability : Option (List (Option DayEntry))
  availabilityStatus : Option JsVal
deriving Repr, DecidableEq

/-- `record?.availability || []` as then tested by
`Array.isArray(days) && days.length`. -/
def perDayOf (record : Option AvailRecord) : List (Option DayEntry) :=
  (record.bind (·.availability)).getD []

/-- The `isAvailable` verdict of the availability route
(netlify/functions/index.js): with per-day entries, every day must not be
explicitly false; otherwise a present record derives from
`availabilityStatus.toUpperCase() === "AVAILABLE"` when the status is a
string, defaulting to `true` when it is not; a null record yields `false`. -/
def deriveIsAvailable (record : Option AvailRecord) : Bool :=
  if (perDayOf record).length ≠ 0 then
    (perDayOf record).all dayNotExplicitlyFalse
  else
    match record with
    | none => false
    | some r =>
        match r.availabilityStatus with
        | some (JsVal.vStr s) => decide (strUpper s = "AVAILABLE")
        | _ => true

/-- Per-day entry of server/index.js `fetchAvailability`, which additionally
inspects a per-day `status` string. -/
structure ServerDay where
  isAvailable : Option JsVal
  available : Option JsVal
  status : Option JsVal
deriving Repr, DecidableEq

/-- The per-day flag of server/index.js:
`d?.isAvailable ?? d?.available ?? (typeof d?.status === "string" ?
status not in BLOCKED/UNAVAILABLE : undefined)`, then `flag !== false`. -/
def serverDayFlagNotFalse (d : Option ServerDay) : Bool :=
  match d with
  | none => true
  | some d =>
      match d.isAvailable with
      | some v => decide (v ≠ JsVal.vBool false)
      | none =>
          match d.available with
          | some v => decide (v ≠ JsVal.vBool false)
          | none =>
              match d.status with
              | some (JsVal.vStr s) =>
                  decide (strUpper s ≠ "BLOCKED" ∧ strUpper s ≠ "UNAVAILABLE")
              | _ => true

/-- The verdict derivation of server/index.js `fetchAvailability`, applied to
the extracted `days` list and the relevant fields: `availabilityStatus` of
`data`, the length of `data.results` when that field is an array
(`resultsLen = none` otherwise), and `fallbackResponse.count` when it is a
number.  `none` models the `undefined` verdict. -/
def serverIsAvailable (days : List (Option ServerDay))
    (availabilityStatus : Option JsVal) (resultsLen : Option Nat)
    (fallbackCount : Option Int) : Option Bool :=
  if days.length ≠ 0 then some (days.all serverDayFlagNotFalse)
  else
    match availabilityStatus with
    | some (JsVal.vStr s) => some (decide (strUpper s = "AVAILABLE"))
    | _ =>
        match resultsLen with
        | some n => some (decide (0 < n))
        | none =>
            match fallbackCount with
            | some c => some (decide (0 < c))
            | none => none

/-- The claim's phrase, stated literally for a server-variant day list: some
day's `isAvailable`/`available` flag is explicitly `false`. -/
def specSomeDayExplicitlyFalse (days : List (Option ServerDay)) : Bool :=
  days.any (fun d =>
    match d with
    | none => false
    | some d =>
        match d.isAvailable with
        | some v => decide (v = JsVal.vBool false)
        | none =>
            match d.available with
            | some v => decide (v = JsVal.vBool false)
            | none => false)

/-- Counterexample to C6 as stated: in server/index.js `fetchAvailability`, a
record with a single per-day entry whose `status` is "BLOCKED" (and no
`isAvailable`/`available` flags at all) yields the verdict `false`, although
no day's `isAvailable`/`available` flag is explicitly false — the claimed
"true iff no day flag is explicitly false" equivalence fails because the
server variant also derives per-day unavailability from the day's status
string. -/
theorem server_day_status_refutes_verdict_claim :
    serverIsAvailable [some ⟨none, none, some (JsVal.vStr "BLOCKED")⟩] none none none =
      some false ∧
    specSomeDayExplicitlyFalse [some ⟨none, none, some (JsVal.vStr "BLOCKED")⟩] = false := by
  refine ⟨?_, ?_⟩ <;> decide

/-- C6 amended: in the netlify availability route, with a non-empty per-day
list the verdict is true iff no day's `isAvailable`/`available` flag is
explicitly false, and with no per-day entries and a string status the verdict
is true iff the status uppercases to "AVAILABLE".  In the server variant a
day also counts as unavailable when its `status` uppercases to BLOCKED or
UNAVAILABLE (see the counterexample), and the no-per-day fallback chain is
status, then nonempty `results`, then positive `count`, else undefined. -/
theorem availability_verdict (r : AvailRecord) (days2 : List (Option ServerDay))
    (status2 : Option JsVal) (rlen : Option Nat) (fcount : Option Int) :
    (∀ days, r.availability = some days → days ≠ [] →
      (deriveIsAvailable (some r) = true ↔
        ∀ d ∈ days, dayNotExplicitlyFalse d = true)) ∧
    (∀ s, perDayOf (some r) = [] → r.availabilityStatus = some (JsVal.vStr s) →
      (deriveIsAvailable (some r) = true ↔ strUpper s = "AVAILABLE")) ∧
    (days2 ≠ [] →
      serverIsAvailable days2 status2 rlen fcount =
        some (days2.all serverDayFlagNotFalse)) ∧
    (∀ s, days2 = [] → status2 = some (JsVal.vStr s) →
      serverIsAvailable days2 status2 rlen fcount =
        some (decide (strUpper s = "AVAILABLE"))) := by
  refine ⟨?_, ?_, ?_, ?_⟩
  · intro days hav hne
    have hp : perDayOf (some r) = days := by simp [perDayOf, hav]
    unfold deriveIsAvailable
    rw [hp, if_pos (fun h => hne (List.length_eq_zero.mp h))]
    simp [List.all_eq_true]
  · intro s hp hstat
    unfold deriveIsAvailable
    rw [hp, if_neg (by simp)]
    show (match r.availabilityStatus with
          | some (JsVal.vStr s) => decide (strUpper s = "AVAILABLE")
          | _ => true) = true ↔ strUpper s = "AVAILABLE"
    rw [hstat]
    simp
  · intro hne
    unfold serverIsAvailable
    rw [if_pos (fun h => hne (List.length_eq_zero.mp h))]
  · intro s hd hstat
    subst hd
    unfold serverIsAvailable
    rw [if_neg (by simp), hstat]

/-- Witness for the amended C6 at concrete records: one all-true day yields
true; an explicitly-false day yields false; a day-less record with status
"aVailable" yields true; the server fallback with status string works the
same. -/
theorem availability_verdict_witness :
    deriveIsAvailable
      (some ⟨some [some ⟨some (JsVal.vBool true), none⟩], none⟩) = true ∧
    deriveIsAvailable
      (some ⟨some [some ⟨some (JsVal.vBool false), none⟩], none⟩) = false ∧
    deriveIsAvailable (some ⟨none, some (JsVal.vStr "aVailable")⟩) = true ∧
    serverIsAvailable [] (some (JsVal.vStr "BOOKED")) none none = some false := by
  refine ⟨?_, ?_, ?_, ?_⟩
  · exact ((availability_verdict ⟨some [some ⟨some (JsVal.vBool true), none⟩], none⟩
      [] none none none).1 _ rfl (by decide)).mpr (by decide)
  · have h := ((availability_verdict ⟨some [some ⟨some (JsVal.vBool false), none⟩], none⟩
      [] none none none).1 [some ⟨some (JsVal.vBool false), none⟩] rfl (by decide))
    cases hb : deriveIsAvailable
        (some ⟨some [some ⟨some (JsVal.vBool false), none⟩], none⟩)
    · rfl
    · exfalso
      have h2 := h.mp hb
      have h3 := h2 (some ⟨some (JsVal.vBool false), none⟩) (by decide)
      simp [dayNotExplicitlyFalse] at h3
  · exact ((availability_verdict ⟨none, some (JsVal.vStr "aVailable")⟩
      [] none none none).2.1 "aVailable" (by decide) rfl).mpr (by decide)
  · have h := (availability_verdict ⟨none, none⟩
      [] (some (JsVal.vStr "BOOKED")) none none).2.2.2 "BOOKED" rfl rfl
    rw [h]
    decide

/- ===================  Listing normalization and dedup  =================== -/

/-- A primitive JavaScript value (the kind a `Map` compares by value). -/
inductive JsPrim where
  | pBool (b : Bool)
  | pNum (n : Int)
  | pStr (s : String)
deriving Repr, DecidableEq

/-- A JSON-like vendor payload as the normalizers traverse it. -/
inductive Json where
  | null
  | prim (p : JsPrim)
  | arr (elems : List Json)
  | obj (fields : List (String × Json))

def JsPrim.truthy : JsPrim → Bool
  | .pBool b => b
  | .pNum n => decide (n ≠ 0)
  | .pStr s => decide (s ≠ "")

/-- JavaScript truthiness: null/undefined, false, 0 and "" are falsy; arrays
and objects are truthy. -/
def Json.truthy : Json → Bool
  | .null => false
  | .prim p => p.truthy
  | .arr _ => true
  | .obj _ => true

/-- Property read `o.name` (object keys are unique). -/
def getField (fields : List (String × Json)) (name : String) : Option Json :=
  (fields.find? (fun f => decide (f.1 = name))).map (·.2)

/-- `cur.id` when truthy (the fallback of `cur._id || cur.id`); the composite
id must be truthy to pass the `id &&` guard. -/
def idFallback (fields : List (String × Json)) : Option Json :=
  match getField fields "id" with
  | some v => if v.truthy then some v else none
  | none => none

/-- The truthy value of `cur._id || cur.id`, or `none` when it is falsy. -/
def recordId (fields : List (String × Json)) : Option Json :=
  match getField fields "_id" with
  | some v => if v.truthy then some v else idFallback fields
  | none => idFallback fields

/-- The guesty.cjs record test:
`cur.title && (cur.bedrooms !== undefined || cur.bathrooms !== undefined ||
cur.beds !== undefined)`. -/
def hasBedsCjs (fields : List (String × Json)) : Bool :=
  (match getField fields "title" with
   | some v => v.truthy
   | none => false) &&
  ((getField fields "bedrooms").isSome || (getField fields "bathrooms").isSome ||
    (getField fields "beds").isSome)

/-- A `Map` key for an id value: primitives are compared by value; an
object/array id is keyed by reference, which no two distinct records share,
so it never collides — modelled by `none`. -/
def recKeyOf (v : Json) : Option JsPrim :=
  match v with
  | .prim p => some p
  | _ => none

mutual
def Json.size : Json → Nat
  | .null => 1
  | .prim _ => 1
  | .arr xs => 1 + Json.sizeList xs
  | .obj fs => 1 + Json.sizeFields fs
def Json.sizeList : List Json → Nat
  | [] => 0
  | x :: xs => Json.size x + Json.sizeList xs
def Json.sizeFields : List (String × Json) → Nat
  | [] => 0
  | f :: fs => Json.size f.2 + Json.sizeFields fs
end

theorem Json.sizeList_append (a b : List Json) :
    Json.sizeList (a ++ b) = Json.sizeList a + Json.sizeList b := by
  induction a with
  | nil => simp [Json.sizeList]
  | cons x xs ih => simp [Json.sizeList, ih]; omega

theorem Json.sizeList_reverse (a : List Json) :
    Json.sizeList a.reverse = Json.sizeList a := by
  induction a with
  | nil => rfl
  | cons x xs ih =>
      rw [List.reverse_cons, Json.sizeList_append]
      simp [Json.sizeList, ih]
      omega

theorem Json.sizeList_map_snd (fs : List (String × Json)) :
    Json.sizeList (fs.map (·.2)) = Json.sizeFields fs := by
  induction fs with
  | nil => rfl
  | cons f fs ih => simp [Json.sizeList, Json.sizeFields, ih]

abbrev RecordFields := List (String × Json)

/-- The stack-based `while` traversal of `normalizePmListings` in guesty.cjs:
pop the top; an array pushes its elements (so they are popped in reverse
order); an object is tested as a listing record (`hasBeds && id`) and pushes
its values.  Returns the record candidates — (map key of the id, the record's
fields) — in the order the loop encounters them. -/
def stackWalk : List Json → List (Option JsPrim × RecordFields)
  | [] => []
  | .null :: rest => stackWalk rest
  | .prim _ :: rest => stackWalk rest
  | .arr xs :: rest => stackWalk (xs.reverse ++ rest)
  | .obj fs :: rest =>
      (match recordId fs, hasBedsCjs fs with
       | some idv, true => [(recKeyOf idv, fs)]
       | _, _ => []) ++ stackWalk ((fs.map (fun f => f.2)).reverse ++ rest)
termination_by s => Json.sizeList s
decreasing_by
  all_goals
    simp [Json.sizeList, Json.size, Json.sizeList_append, Json.sizeList_reverse,
      Json.sizeList_map_snd]

/-- `listingsMap.get(k)` for a primitive key; `none` keys (object-identity
keys) never match. -/
def pmLookup : List (Option JsPrim × RecordFields) → Option JsPrim → Option RecordFields
  | _, none => none
  | m, some p => (m.find? (fun e => decide (e.1 = some p))).map (·.2)

/-- `listingsMap.has(id)`. -/
def pmMapHas (m : List (Option JsPrim × RecordFields)) (k : Option JsPrim) : Bool :=
  (pmLookup m k).isSome

/-- The guesty.cjs insertion `if (hasBeds && id && !listingsMap.has(id))
listingsMap.set(id, cur)` — the hasBeds/id guards are already the candidate
selection of `stackWalk`, so only the has-guarded set remains. -/
def insertFirstWins (m : List (Option JsPrim × RecordFields))
    (c : Option JsPrim × RecordFields) : List (Option JsPrim × RecordFields) :=
  if pmMapHas m c.1 then m else m ++ [c]

/-- The `listingsMap` of guesty.cjs `normalizePmListings` after the
traversal. -/
def buildCjsMap (cands : List (Option JsPrim × RecordFields)) :
    List (Option JsPrim × RecordFields) :=
  cands.foldl insertFirstWins []

/-- guesty.cjs `normalizePmListings` up to the per-record field projection
(`mapListing`, a one-to-one reshaping excluded from the modelled core):
`Array.from(listingsMap.values())` in insertion order. -/
def normalizePmListingsCjs (pmData : Json) : List RecordFields :=
  (buildCjsMap (stackWalk [pmData])).map (·.2)

/-- `Map.set(id, l)` as used by index.js `normalizePmListings`: replace in
place when the (primitive) key is present, else append. -/
def pmMapSet (m : List (Option JsPrim × RecordFields)) (k : Option JsPrim)
    (fs : RecordFields) : List (Option JsPrim × RecordFields) :=
  match k with
  | none => m ++ [(none, fs)]
  | some p =>
      if pmMapHas m (some p) then
        m.map (fun e => if e.1 = some p then (some p, fs) else e)
      else m ++ [(some p, fs)]

/-- `normalizePmListings` of netlify/functions/index.js: a flat `forEach`
over the input list with `const id = l._id || l.id; if (id && l.title)
map.set(id, l)` — note: no has-check, so a later record with the same id
overwrites the earlier one.  Returns `[...map.values()]` up to the
per-record field projection. -/
def idxStep (m : List (Option JsPrim × RecordFields)) (l : Json) :
    List (Option JsPrim × RecordFields) :=
  match l with
  | .obj fs =>
      match recordId fs with
      | some idv =>
          if (match getField fs "title" with
              | some t => t.truthy
              | none => false) then
            pmMapSet m (recKeyOf idv) fs
          else m
      | none => m
  | _ => m

def buildIdxMap (list : List Json) : List (Option JsPrim × RecordFields) :=
  list.foldl idxStep []

def normalizePmListingsIdx (list : List Json) : List RecordFields :=
  (buildIdxMap list).map (·.2)

/-- The title of a record, for stating concrete outcomes. -/
def titleStrOf (fs : RecordFields) : Option String :=
  match getField fs "title" with
  | some (.prim (.pStr s)) => some s
  | _ => none

theorem pmLookup_some (m : List (Option JsPrim × RecordFields)) (p : JsPrim) :
    pmLookup m (some p) = (m.find? (fun e => decide (e.1 = some p))).map (·.2) := rfl

theorem pmLookup_append (m : List (Option JsPrim × RecordFields))
    (c : Option JsPrim × RecordFields) (p : JsPrim) :
    pmLookup (m ++ [c]) (some p) =
      match pmLookup m (some p) with
      | some fs => some fs
      | none => if c.1 = some p then some c.2 else none := by
  simp only [pmLookup_some]
  rw [List.find?_append]
  cases hf : m.find? (fun e => decide (e.1 = some p)) with
  | some e => simp
  | none =>
      by_cases hc : c.1 = some p
      · simp [List.find?, hc]
      · simp [List.find?, hc]

theorem pmLookup_insertFirstWins (m : List (Option JsPrim × RecordFields))
    (c : Option JsPrim × RecordFields) (p : JsPrim) :
    pmLookup (insertFirstWins m c) (some p) =
      match pmLookup m (some p) with
      | some fs => some fs
      | none => if c.1 = some p then some c.2 else none := by
  unfold insertFirstWins
  by_cases hhas : pmMapHas m c.1 = true
  · rw [if_pos hhas]
    cases hl : pmLookup m (some p) with
    | some fs => simp
    | none =>
        by_cases hc : c.1 = some p
        · rw [hc] at hhas
          unfold pmMapHas at hhas
          rw [hl] at hhas
          simp at hhas
        · simp [hc]
  · rw [if_neg hhas]
    exact pmLookup_append m c p

theorem pmLookup_foldl (cands : List (Option JsPrim × RecordFields)) :
    ∀ (m : List (Option JsPrim × RecordFields)) (p : JsPrim),
      pmLookup (cands.foldl insertFirstWins m) (some p) =
        match pmLookup m (some p) with
        | some fs => some fs
        | none => (cands.find? (fun c => decide (c.1 = some p))).map (·.2) := by
  induction cands with
  | nil =>
      intro m p
      rw [List.foldl_nil]
      cases pmLookup m (some p) <;> simp
  | cons c cs ih =>
      intro m p
      rw [List.foldl_cons, ih, pmLookup_insertFirstWins]
      cases hl : pmLookup m (some p) with
      | some fs => simp
      | none =>
          by_cases hc : c.1 = some p
          · simp [List.find?, hc]
          · simp [List.find?, hc]

/-- The primitive keys present in the map, in insertion order. -/
def someKeys (m : List (Option JsPrim × RecordFields)) : List JsPrim :=
  m.filterMap (·.1)

theorem mem_someKeys_iff (m : List (Option JsPrim × RecordFields)) (p : JsPrim) :
    p ∈ someKeys m ↔ (pmLookup m (some p)).isSome := by
  unfold someKeys pmLookup
  rw [List.mem_filterMap, Option.isSome_map', List.find?_isSome]
  constructor
  · rintro ⟨e, hem, he⟩
    exact ⟨e, hem, by simp [he]⟩
  · rintro ⟨e, hem, he⟩
    simp at he
    exact ⟨e, hem, he⟩

theorem someKeys_insertFirstWins (m : List (Option JsPrim × RecordFields))
    (c : Option JsPrim × RecordFields) (h : (someKeys m).Nodup) :
    (someKeys (insertFirstWins m c)).Nodup := by
  unfold insertFirstWins
  by_cases hhas : pmMapHas m c.1 = true
  · rw [if_pos hhas]
    exact h
  · rw [if_neg hhas]
    unfold someKeys
    rw [List.filterMap_append]
    cases hc : c.1 with
    | none =>
        have h2 : List.filterMap (fun e => e.1) [c] = [] := by simp [List.filterMap, hc]
        rw [h2, List.append_nil]
        exact h
    | some p =>
        have hp : p ∉ someKeys m := by
          rw [mem_someKeys_iff]
          unfold pmMapHas at hhas
          rw [hc] at hhas
          simpa using hhas
        have h2 : List.filterMap (fun e => e.1) [c] = [p] := by simp [List.filterMap, hc]
        rw [h2]
        rw [List.nodup_append]
        refine ⟨h, List.nodup_singleton p, ?_⟩
        intro x hx hx2
        rw [List.mem_singleton] at hx2
        subst hx2
        exact hp hx

theorem someKeys_foldl_nodup (cands : List (Option JsPrim × RecordFields)) :
    ∀ m, (someKeys m).Nodup → (someKeys (cands.foldl insertFirstWins m)).Nodup := by
  induction cands with
  | nil => intro m h; exact h
  | cons c cs ih =>
      intro m h
      rw [List.foldl_cons]
      exact ih _ (someKeys_insertFirstWins m c h)

/-- C7 amended: guesty.cjs `normalizePmListings` deduplicates with the FIRST
traversal occurrence winning — the final map holds, for every primitive id,
exactly the first-encountered candidate record with that id, keys are
pairwise distinct, and every mapped record appears in the output — while
index.js `normalizePmListings` (no has-check, `Map.set` overwrites) keeps the
LAST occurrence: for two records sharing a primitive id, the second one's
fields end up in the map. -/
theorem normalizePmListings_dedup (pmData : Json) (p : JsPrim)
    (fsA fsB : RecordFields) (idA idB : Json) :
    (pmLookup (buildCjsMap (stackWalk [pmData])) (some p) =
      ((stackWalk [pmData]).find? (fun c => decide (c.1 = some p))).map (·.2)) ∧
    (someKeys (buildCjsMap (stackWalk [pmData]))).Nodup ∧
    (∀ fs, pmLookup (buildCjsMap (stackWalk [pmData])) (some p) = some fs →
      fs ∈ normalizePmListingsCjs pmData) ∧
    (recordId fsA = some idA → recKeyOf idA = some p →
     recordId fsB = some idB → recKeyOf idB = some p →
     (match getField fsA "title" with | some t => t.truthy | none => false) = true →
     (match getField fsB "title" with | some t => t.truthy | none => false) = true →
     pmLookup (buildIdxMap [Json.obj fsA, Json.obj fsB]) (some p) = some fsB) := by
  refine ⟨?_, ?_, ?_, ?_⟩
  · rw [buildCjsMap, pmLookup_foldl]
    simp [pmLookup]
  · exact someKeys_foldl_nodup (stackWalk [pmData]) [] (by simp [someKeys])
  · intro fs hfs
    unfold normalizePmListingsCjs
    rw [pmLookup_some] at hfs
    cases hf : (buildCjsMap (stackWalk [pmData])).find? (fun e => decide (e.1 = some p)) with
    | none => rw [hf] at hfs; simp at hfs
    | some e =>
        rw [hf] at hfs
        simp at hfs
        have he := List.mem_of_find?_eq_some hf
        exact List.mem_map.mpr ⟨e, he, hfs⟩
  · intro hA1 hA2 hB1 hB2 hA3 hB3
    have s1 : buildIdxMap [Json.obj fsA, Json.obj fsB] =
        pmMapSet (pmMapSet [] (recKeyOf idA) fsA) (recKeyOf idB) fsB := by
      simp [buildIdxMap, idxStep, hA1, hB1, hA3, hB3]
    rw [s1, hA2, hB2]
    have s2 : pmMapSet [] (some p) fsA = [(some p, fsA)] := by
      simp [pmMapSet, pmMapHas, pmLookup, List.find?]
    rw [s2]
    have s3 : pmMapSet [(some p, fsA)] (some p) fsB = [(some p, fsB)] := by
      simp [pmMapSet, pmMapHas, pmLookup, List.find?]
    rw [s3]
    simp [pmLookup, List.find?]

def dupRecA : RecordFields := [("_id", .prim (.pStr "x")), ("title", .prim (.pStr "first"))]

def dupRecB : RecordFields := [("_id", .prim (.pStr "x")), ("title", .prim (.pStr "second"))]

/-- Counterexample to C7 as stated: index.js `normalizePmListings` keeps the
LAST occurrence.  Two records sharing id "x" with titles "first" and
"second" normalize to a single entry carrying the data of the
second-encountered record, so "the resulting Listing array contains the data
of the first-encountered record" is false for this variant. -/
theorem normalizePmListingsIdx_last_wins :
    (normalizePmListingsIdx [Json.obj dupRecA, Json.obj dupRecB]).map titleStrOf =
      [some "second"] ∧
    (normalizePmListingsIdx [Json.obj dupRecA, Json.obj dupRecB]).length = 1 := by
  constructor
  · decide
  · decide

/-- Witness for the amended C7 at concrete records: for the index.js
variant, two concrete records sharing id "x" leave the second one's fields
in the map. -/
theorem normalizePmListings_dedup_witness :
    pmLookup (buildIdxMap [Json.obj dupRecA, Json.obj dupRecB])
      (some (JsPrim.pStr "x")) = some dupRecB :=
  (normalizePmListings_dedup Json.null (JsPrim.pStr "x") dupRecA dupRecB
      (.prim (.pStr "x")) (.prim (.pStr "x"))).2.2.2
    rfl rfl rfl rfl rfl rfl

/- ===================  Missing-parameter validation  =================== -/

/-- An upstream interaction a handler could perform: a token fetch, a
scheduler admission (`withLimit`), or an outbound HTTP request. -/
inductive UpstreamCall where
  | tokenFetch
  | schedulerAdmission
  | httpRequest (path : String)
deriving Repr, DecidableEq

/-- JavaScript falsiness of an optional query-string value: missing
(`undefined`) or the empty string. -/
def strFalsy : Option String → Bool
  | none => true
  | some s => decide (s = "")

/-- The `listings/:id/availability` branch of the guesty.js handler
(lines 134-153, identical in guesty.cjs 259-278): `if (!startDate ||
!endDate) return json(400, ...)` runs before any `guestyFetch`, hence before
any token fetch or outbound request.  `run` is the rest of the branch (the
primary availability query with its fallback), reporting its HTTP status and
the upstream calls it performs. -/
def guestyAvailabilityBranch (startDate endDate : Option String)
    (run : String → String → Nat × List UpstreamCall) : Nat × List UpstreamCall :=
  if strFalsy startDate || strFalsy endDate then (400, [])
  else run (startDate.getD "") (endDate.getD "")

/-- The `listings/:id/price-estimate` branch of the guesty.js handler
(lines 155-162, identical in guesty.cjs 280-287): same date validation
before the single `guestyFetch`. -/
def guestyPriceEstimateBranch (startDate endDate : Option String)
    (run : String → String → Nat × List UpstreamCall) : Nat × List UpstreamCall :=
  if strFalsy startDate || strFalsy endDate then (400, [])
  else run (startDate.getD "") (endDate.getD "")

/-- The availability route of netlify/functions/index.js (lines 1007-1013):
`if (!id || !startDate || !endDate) return 400` precedes the cache lookup,
the token fetch and every scheduled upstream query (all inside `rest`). -/
def idxAvailabilityRoute (id startDate endDate : Option String)
    (rest : Unit → Nat × List UpstreamCall) : Nat × List UpstreamCall :=
  if strFalsy id || strFalsy startDate || strFalsy endDate then (400, [])
  else rest ()

/-- C10: whenever `startDate` or `endDate` is missing (or empty), all three
handlers return HTTP 400 having performed zero upstream calls — no token
fetch, no scheduler admission, no outbound request — regardless of what the
rest of the handler would have done. -/
theorem missing_dates_return_400_no_upstream
    (id startDate endDate : Option String)
    (runA runP : String → String → Nat × List UpstreamCall)
    (rest : Unit → Nat × List UpstreamCall)
    (hmiss : strFalsy startDate = true ∨ strFalsy endDate = true) :
    guestyAvailabilityBranch startDate endDate runA = (400, []) ∧
    guestyPriceEstimateBranch startDate endDate runP = (400, []) ∧
    idxAvailabilityRoute id startDate endDate rest = (400, []) := by
  have hcond : (strFalsy startDate || strFalsy endDate) = true := by
    rcases hmiss with h | h <;> simp [h]
  refine ⟨?_, ?_, ?_⟩
  · unfold guestyAvailabilityBranch
    rw [if_pos hcond]
  · unfold guestyPriceEstimateBranch
    rw [if_pos hcond]
  · unfold idxAvailabilityRoute
    rw [if_pos ?_]
    simp only [Bool.or_eq_true]
    rcases hmiss with h | h
    · exact Or.inl (Or.inr h)
    · exact Or.inr h

/-- Witness for C10 at concrete inputs: a request with `startDate` missing
and `endDate = "2025-06-05"` yields 400 and an empty upstream-call log from
all three handlers, even though the downstream continuation would have
issued a request. -/
theorem missing_dates_return_400_no_upstream_witness :
    guestyAvailabilityBranch none (some "2025-06-05")
      (fun _ _ => (200, [UpstreamCall.tokenFetch, UpstreamCall.httpRequest "x"])) =
      (400, []) ∧
    guestyPriceEstimateBranch none (some "2025-06-05")
      (fun _ _ => (200, [UpstreamCall.httpRequest "y"])) = (400, []) ∧
    idxAvailabilityRoute (some "L1") none (some "2025-06-05")
      (fun _ => (200, [UpstreamCall.schedulerAdmission])) = (400, []) :=
  missing_dates_return_400_no_upstream (some "L1") none (some "2025-06-05")
    (fun _ _ => (200, [UpstreamCall.tokenFetch, UpstreamCall.httpRequest "x"]))
    (fun _ _ => (200, [UpstreamCall.httpRequest "y"]))
    (fun _ => (200, [UpstreamCall.schedulerAdmission]))
    (Or.inl rfl)

end OneLux
